import Mathlib

/-!
# Verification of the Prompt-Optimizer storage and reporting core

Shallow embedding of the repository's core logic:

* the persistent storage layer of `src/services/dbService.ts`
  (`addUser`, `getAllUsers`, `addAnalysisRecord`, `getAllHistory`,
  `addExecutionRecord`, `getAllExecutionHistory`, `clearAllData`),
  modelled as explicit state passing over a `DBState` record;
* the report aggregation function `calculateReportData` and the CSV
  export function `exportReportToCsv` of the main application module,
  including the local-calendar window computation performed through the
  JavaScript `Date` API.

JavaScript numbers holding integer token counts, ids and millisecond
timestamps are modelled as `Int`; the fractional cost computation is
modelled as exact rational arithmetic (`ℚ`).  The JavaScript `Date`
value observed by `calculateReportData` is modelled by its local civil
components (year, 0-based month, day of month, milliseconds within the
day); the timezone offset is taken to be zero, and the conversion from
civil components to a millisecond timestamp follows the ECMAScript
`MakeDay` computation (proleptic Gregorian calendar, no DST), written
with the standard Hinnant `days_from_civil` algorithm.
-/

namespace PromptOptimizer

/-- `AnalysisResult` from `types.ts`: the payload returned by the external
generation client for one analyze call. -/
structure AnalysisResult where
  originalTokenCount : Int
  optimizedPrompt : String
  optimizedTokenCount : Int
  explanation : String
deriving DecidableEq, Repr

/-- `UserProfile` from `types.ts`.  A stored profile always has an id, so the
stored shape carries it as a plain field. -/
structure UserProfile where
  id : Int
  name : String
  createdAt : Int
deriving DecidableEq, Repr

/-- `AnalysisRecord` from `types.ts`: one stored prompt-optimization event. -/
structure AnalysisRecord where
  id : Int
  username : String
  timestamp : Int
  originalTokenCount : Int
  optimizedTokenCount : Int
  savings : Int
deriving DecidableEq, Repr

/-- The `promptType` tag of an execution record. -/
inductive PromptType where
  | original
  | optimized
deriving DecidableEq, Repr

/-- `ExecutionRecord` from `types.ts`: one stored prompt-execution event. -/
structure ExecutionRecord where
  id : Int
  username : String
  timestamp : Int
  promptType : PromptType
  promptText : String
  resultText : String
deriving DecidableEq, Repr

/-- The state of the IndexedDB database `PromptOptimizerDB`: the three object
stores created by `initDB` (`users`, `analysisHistory`, `executionHistory`),
each listed in insertion order (= ascending autoincrement key order, which is
the order `getAll` returns), together with the next autoincrement key of each
store.  IndexedDB key generators start at 1 and are not reset by `clear`. -/
structure DBState where
  users : List UserProfile
  analysisHistory : List AnalysisRecord
  executionHistory : List ExecutionRecord
  nextUserId : Int
  nextAnalysisId : Int
  nextExecutionId : Int
deriving DecidableEq, Repr

/-- The freshly created (or freshly upgraded) database: all three stores
empty, all key generators at 1. -/
def emptyDB : DBState :=
  { users := []
    analysisHistory := []
    executionHistory := []
    nextUserId := 1
    nextAnalysisId := 1
    nextExecutionId := 1 }

/-- The rejection message of `addUser` in `dbService.ts` for a failed
`store.add` request (the unique index on `name` makes the request fail
exactly when the name is already stored). -/
def dupUserMsg (name : String) : String :=
  "User \"" ++ name ++ "\" might already exist."

/-- `addUser` from `dbService.ts`.  The `users` store has a unique index on
`name` (created in `initDB`), so the `store.add` request errors exactly when
a profile with the same name (case-sensitive string equality) is already
stored; the promise then rejects with `dupUserMsg` and the transaction
leaves the store unchanged.  Otherwise the profile is stored with
`createdAt = Date.now()` and the generated autoincrement id, and the full
profile is returned. -/
def addUser (s : DBState) (name : String) (now : Int) :
    Except String UserProfile × DBState :=
  if s.users.any (fun u => u.name == name) then
    (Except.error (dupUserMsg name), s)
  else
    let newUser : UserProfile := ⟨s.nextUserId, name, now⟩
    (Except.ok newUser,
      { s with users := s.users ++ [newUser], nextUserId := s.nextUserId + 1 })

/-- Lexicographic three-way comparison of numeric sequences, structurally
recursive so that it evaluates inside the kernel. -/
def lexCmp : List Nat → List Nat → Ordering
  | [], [] => Ordering.eq
  | [], _ :: _ => Ordering.lt
  | _ :: _, [] => Ordering.gt
  | a :: as, b :: bs =>
    if a < b then Ordering.lt
    else if b < a then Ordering.gt
    else lexCmp as bs

/-- Collation key modelling the default-locale `String.localeCompare` on
ASCII strings: the primary level compares the case-folded characters, and
only when those are all equal does the case level decide, with lower case
ordering before upper case.  The two levels are packed into one numeric
sequence (separated by 0, which is smaller than every character code that
can occur in the first level) so that plain lexicographic comparison
realizes the two-level comparison. -/
def collationKey (s : String) : List Nat :=
  s.data.map (fun c => c.toLower.toNat) ++
    (0 :: s.data.map (fun c => if c.isUpper then 1 else 0))

/-- Model of JavaScript `a.localeCompare(b)` (default locale, ASCII):
negative when `a` collates before `b`, positive when after, zero on ties. -/
def localeCompare (a b : String) : Int :=
  match lexCmp (collationKey a) (collationKey b) with
  | Ordering.lt => -1
  | Ordering.gt => 1
  | Ordering.eq => 0

/-- The non-strict order induced by the `localeCompare` comparator: `a` may
come before `b` in a list sorted by the comparator. -/
def userLe (a b : UserProfile) : Prop :=
  localeCompare a.name b.name ≤ 0

instance : DecidableRel userLe := fun a b => by
  unfold userLe localeCompare
  infer_instance

instance : IsTotal UserProfile userLe :=
  ⟨fun a b => by
    have total : ∀ xs ys : List Nat,
        lexCmp xs ys ≠ Ordering.gt ∨ lexCmp ys xs ≠ Ordering.gt := by
      intro xs
      induction xs with
      | nil =>
        intro ys
        cases ys <;> simp [lexCmp]
      | cons x xs ih =>
        intro ys
        cases ys with
        | nil => simp [lexCmp]
        | cons y ys =>
          by_cases hxy : x < y
          · have hyx : ¬y < x := by omega
            simp [lexCmp, hxy, hyx]
          · by_cases hyx : y < x
            · simp [lexCmp, hxy, hyx]
            · simpa [lexCmp, hxy, hyx] using ih ys
    unfold userLe localeCompare
    rcases total (collationKey a.name) (collationKey b.name) with h | h
    · left
      cases hc : lexCmp (collationKey a.name) (collationKey b.name) with
      | lt => decide
      | eq => decide
      | gt => exact absurd hc h
    · right
      cases hc : lexCmp (collationKey b.name) (collationKey a.name) with
      | lt => decide
      | eq => decide
      | gt => exact absurd hc h⟩

instance : IsTrans UserProfile userLe :=
  ⟨fun a b c hab hbc => by
    have trans : ∀ xs ys zs : List Nat, lexCmp xs ys ≠ Ordering.gt →
        lexCmp ys zs ≠ Ordering.gt → lexCmp xs zs ≠ Ordering.gt := by
      intro xs
      induction xs with
      | nil =>
        intro ys zs h1 h2
        cases zs <;> simp [lexCmp]
      | cons x xs ih =>
        intro ys zs h1 h2
        cases ys with
        | nil => simp [lexCmp] at h1
        | cons y ys =>
          cases zs with
          | nil => simp [lexCmp] at h2
          | cons z zs =>
            by_cases hxy : x < y
            · by_cases hyz : y < z
              · have hxz : x < z := by omega
                have hzx : ¬z < x := by omega
                simp [lexCmp, hxz, hzx]
              · by_cases hzy : z < y
                · simp [lexCmp, hyz, hzy] at h2
                · have hxz : x < z := by omega
                  have hzx : ¬z < x := by omega
                  simp [lexCmp, hxz, hzx]
            · by_cases hyx : y < x
              · simp [lexCmp, hxy, hyx] at h1
              · by_cases hyz : y < z
                · have hxz : x < z := by omega
                  have hzx : ¬z < x := by omega
                  simp [lexCmp, hxz, hzx]
                · by_cases hzy : z < y
                  · simp [lexCmp, hyz, hzy] at h2
                  · have h3 : ¬x < z := by omega
                    have h4 : ¬z < x := by omega
                    simp only [lexCmp, if_neg hxy, if_neg hyx] at h1
                    simp only [lexCmp, if_neg hyz, if_neg hzy] at h2
                    simp only [lexCmp, if_neg h3, if_neg h4]
                    exact ih ys zs h1 h2
    unfold userLe localeCompare at hab hbc ⊢
    have h1 : lexCmp (collationKey a.name) (collationKey b.name) ≠
        Ordering.gt := by
      intro hg
      rw [hg] at hab
      exact absurd hab (by decide)
    have h2 : lexCmp (collationKey b.name) (collationKey c.name) ≠
        Ordering.gt := by
      intro hg
      rw [hg] at hbc
      exact absurd hbc (by decide)
    have h3 := trans _ _ _ h1 h2
    cases hc : lexCmp (collationKey a.name) (collationKey c.name) with
    | lt => decide
    | eq => decide
    | gt => exact absurd hc h3⟩

/-- `getAllUsers` from `dbService.ts`: `store.getAll()` returns the stored
profiles (in key order), and the result is sorted with the comparator
`(a, b) => a.name.localeCompare(b.name)`.  `Array.prototype.sort` with a
consistent comparator is modelled by the stable `insertionSort` on the
induced non-strict order. -/
def getAllUsers (s : DBState) : List UserProfile :=
  List.insertionSort userLe s.users

/-- `addAnalysisRecord` from `dbService.ts` (success path): `savings` is
computed once, as `originalTokenCount - optimizedTokenCount`, the record is
stamped with `timestamp = Date.now()` and stored, and the stored record
(with its generated id) is returned. -/
def addAnalysisRecord (s : DBState) (username : String) (res : AnalysisResult)
    (now : Int) : AnalysisRecord × DBState :=
  let savings := res.originalTokenCount - res.optimizedTokenCount
  let record : AnalysisRecord :=
    ⟨s.nextAnalysisId, username, now, res.originalTokenCount,
      res.optimizedTokenCount, savings⟩
  (record,
    { s with
        analysisHistory := s.analysisHistory ++ [record]
        nextAnalysisId := s.nextAnalysisId + 1 })

/-- `getAllHistory` from `dbService.ts`: returns all stored analysis records
verbatim (`store.getAll()`, no sorting, no recomputation of any field). -/
def getAllHistory (s : DBState) : List AnalysisRecord :=
  s.analysisHistory

/-- `addExecutionRecord` from `dbService.ts` (success path). -/
def addExecutionRecord (s : DBState) (username : String)
    (promptType : PromptType) (promptText resultText : String) (now : Int) :
    ExecutionRecord × DBState :=
  let record : ExecutionRecord :=
    ⟨s.nextExecutionId, username, now, promptType, promptText, resultText⟩
  (record,
    { s with
        executionHistory := s.executionHistory ++ [record]
        nextExecutionId := s.nextExecutionId + 1 })

/-- `getAllExecutionHistory` from `dbService.ts`: returns all stored
execution records verbatim. -/
def getAllExecutionHistory (s : DBState) : List ExecutionRecord :=
  s.executionHistory

/-- `clearAllData` from `dbService.ts`: one `readwrite` transaction spanning
all three object stores issues `clear()` on each, resolving on
`transaction.oncomplete` and rejecting on `transaction.onerror`.  The
backend transaction either commits (all three stores end empty) or aborts
and rolls back (no store is modified); `txnOk` selects which of the two
outcomes the backend produced.  `clear` does not reset the key
generators. -/
def clearAllData (s : DBState) (txnOk : Bool) : Except String Unit × DBState :=
  if txnOk then
    (Except.ok (),
      { s with users := [], analysisHistory := [], executionHistory := [] })
  else
    (Except.error "transaction failed", s)

/-- Milliseconds per day. -/
def msPerDay : Int := 86400000

/-- ECMAScript `MakeDay(year, month, date)`: the day number (days since the
epoch 1970-01-01) of the given local civil date, where `month` is 0-based
and both `month` and `date` may lie outside their calendar ranges (the
computation extends linearly, exactly as the `Date` constructor and
`setDate` normalize overflowing components).  Written with the standard
Hinnant `days_from_civil` algorithm on the proleptic Gregorian calendar. -/
def makeDay (year month date : Int) : Int :=
  let y0 := year + month / 12
  let mm := month % 12 + 1
  let yy := if mm ≤ 2 then y0 - 1 else y0
  let era := yy / 400
  let yoe := yy - era * 400
  let mp := if 2 < mm then mm - 3 else mm + 9
  let doy := (153 * mp + 2) / 5 + date - 1
  let doe := yoe * 365 + yoe / 4 - yoe / 100 + doy
  era * 146097 + doe - 719468

/-- A JavaScript `Date` value in local time, modelled by the civil
components it exposes: `getFullYear()`, `getMonth()` (0-based),
`getDate()` (day of month) and the milliseconds elapsed within the local
day.  The local timezone offset is modelled as zero. -/
structure JSDate where
  year : Int
  month : Int
  day : Int
  msInDay : Int
deriving DecidableEq, Repr

/-- `Date.prototype.getTime` of the modelled date. -/
def JSDate.getTime (d : JSDate) : Int :=
  makeDay d.year d.month d.day * msPerDay + d.msInDay

/-- `Date.prototype.getDay` (day of the week, 0 = Sunday): day 0 of the
epoch was a Thursday. -/
def JSDate.getDay (d : JSDate) : Int :=
  (makeDay d.year d.month d.day + 4) % 7

/-- Number of days of month `m` (0-based) of year `y` of the Gregorian
calendar. -/
def daysInMonth (y m : Int) : Int :=
  if m = 1 then
    if y % 4 = 0 ∧ (y % 100 ≠ 0 ∨ y % 400 = 0) then 29 else 28
  else if m = 3 ∨ m = 5 ∨ m = 8 ∨ m = 10 then 30
  else 31

/-- The civil components of a `JSDate` are in calendar range (which the
components of a genuine `Date` value always are). -/
def JSDate.Valid (d : JSDate) : Prop :=
  0 ≤ d.month ∧ d.month ≤ 11 ∧ 1 ≤ d.day ∧ d.day ≤ daysInMonth d.year d.month ∧
    0 ≤ d.msInDay ∧ d.msInDay < msPerDay

instance (d : JSDate) : Decidable d.Valid := by
  unfold JSDate.Valid; infer_instance

/-- The `Period` union type of the application module. -/
inductive Period where
  | day
  | week
  | month
  | year
  | all
deriving DecidableEq, Repr

/-- The `startTime` computed by the `switch` statement at the top of
`calculateReportData`:
* `day`: `new Date(y, m, d)` — midnight of the current day;
* `week`: a copy of `now` whose day of month is set to
  `getDate() - getDay()` (normalizing, per `setDate`) and whose time of
  day is then zeroed (per `setHours(0,0,0,0)`);
* `month`: `new Date(y, m, 1)`; `year`: `new Date(y, 0, 1)`;
* `all`: `new Date(0)`, the epoch. -/
def windowStart (period : Period) (now : JSDate) : Int :=
  match period with
  | Period.day => makeDay now.year now.month now.day * msPerDay
  | Period.week => makeDay now.year now.month (now.day - now.getDay) * msPerDay
  | Period.month => makeDay now.year now.month 1 * msPerDay
  | Period.year => makeDay now.year 0 1 * msPerDay
  | Period.all => 0

/-- `COST_PER_MILLION_TOKENS` from the application module: the fixed
reference price 0.35 (dollars per million input tokens). -/
def COST_PER_MILLION_TOKENS : ℚ := 0.35

/-- `ReportData` from `types.ts`: the per-user summary row. -/
structure ReportData where
  totalPrompts : Int
  totalOriginalTokens : Int
  totalOptimizedTokens : Int
  totalSavings : Int
  totalExecutions : Int
  estimatedCostSavings : ℚ
deriving DecidableEq, Repr

/-- `FullReport` from `types.ts`: an object keyed by username, modelled as
an association list in key-insertion order. -/
abbrev FullReport : Type := List (String × ReportData)

/-- The all-zero row installed by `initializeUserReport`. -/
def emptyReportData : ReportData := ⟨0, 0, 0, 0, 0, 0⟩

/-- The keys of a report object, in insertion order. -/
def reportKeys (rep : FullReport) : List String :=
  rep.map Prod.fst

/-- Property read `report[username]` on the modelled object. -/
def lookupReport (rep : FullReport) (u : String) : Option ReportData :=
  match rep with
  | [] => none
  | p :: rest => if p.1 = u then some p.2 else lookupReport rest u

/-- `initializeUserReport` from `calculateReportData`: installs the
all-zero row for `username` unless the key is already present. -/
def initializeUserReport (rep : FullReport) (u : String) : FullReport :=
  if u ∈ reportKeys rep then rep else rep ++ [(u, emptyReportData)]

/-- In-place update of the row stored under key `u`. -/
def modifyReport (rep : FullReport) (u : String) (f : ReportData → ReportData) :
    FullReport :=
  rep.map (fun p => if p.1 = u then (p.1, f p.2) else p)

/-- The field updates of the first accumulation loop of
`calculateReportData`, for one qualifying analysis record. -/
def applyAnalysis (r : AnalysisRecord) (d : ReportData) : ReportData :=
  { d with
      totalPrompts := d.totalPrompts + 1
      totalOriginalTokens := d.totalOriginalTokens + r.originalTokenCount
      totalOptimizedTokens := d.totalOptimizedTokens + r.optimizedTokenCount
      totalSavings := d.totalSavings + r.savings }

/-- One iteration of the first loop of `calculateReportData`. -/
def foldAnalysis (rep : FullReport) (r : AnalysisRecord) : FullReport :=
  modifyReport (initializeUserReport rep r.username) r.username (applyAnalysis r)

/-- The field update of the second accumulation loop of
`calculateReportData` (`totalExecutions += 1`). -/
def applyExecution (d : ReportData) : ReportData :=
  { d with totalExecutions := d.totalExecutions + 1 }

/-- One iteration of the second loop of `calculateReportData`. -/
def foldExecution (rep : FullReport) (r : ExecutionRecord) : FullReport :=
  modifyReport (initializeUserReport rep r.username) r.username applyExecution

/-- The final loop of `calculateReportData`: for every user,
`estimatedCostSavings = (totalSavings / 1_000_000) * COST_PER_MILLION_TOKENS`. -/
def finalizeCosts (rep : FullReport) : FullReport :=
  rep.map (fun p =>
    (p.1,
      { p.2 with
          estimatedCostSavings :=
            (p.2.totalSavings : ℚ) / 1000000 * COST_PER_MILLION_TOKENS }))

/-- `calculateReportData` from the application module: resolve the window
start, keep the records with `timestamp >= startTime`, accumulate, then
derive the cost column. -/
def calculateReportData (analysisHistory : List AnalysisRecord)
    (executionHistory : List ExecutionRecord) (period : Period)
    (now : JSDate) : FullReport :=
  let startTime := windowStart period now
  let filteredAnalysisHistory :=
    analysisHistory.filter (fun r => startTime ≤ r.timestamp)
  let filteredExecHistory :=
    executionHistory.filter (fun r => startTime ≤ r.timestamp)
  let rep1 := filteredAnalysisHistory.foldl foldAnalysis []
  let rep2 := filteredExecHistory.foldl foldExecution rep1
  finalizeCosts rep2

/-- `user.replace(/"/g, '""')`: every double-quote character doubled. -/
def escapeQuotes (u : String) : String :=
  String.mk (u.data.foldr
    (fun c acc => if c = '"' then '"' :: '"' :: acc else c :: acc) [])

/-- `Number.prototype.toFixed(6)` on an exact rational: sign taken from the
value, then the nearest multiple of 10⁻⁶ (ties rounded to the larger
numerator), printed with exactly six fractional digits. -/
def toFixed6 (q : ℚ) : String :=
  let sign := if q < 0 then "-" else ""
  let n : Int := ⌊|q| * 1000000 + 1 / 2⌋
  let nn : Nat := n.toNat
  let fracDigits := toString (nn % 1000000)
  sign ++ toString (nn / 1000000) ++ "." ++
    String.mk (List.replicate (6 - fracDigits.length) '0') ++ fracDigits

/-- The fixed header row of `exportReportToCsv`. -/
def csvHeaders : List String :=
  ["User", "Total Prompts", "Total Executions", "Total Original Tokens",
    "Total Optimized Tokens", "Total Savings", "Estimated Cost Savings ($)"]

/-- One data row of `exportReportToCsv`: the username surrounded by double
quotes with internal quotes doubled, the five integer columns printed as
JavaScript prints integral numbers, and the cost column via `toFixed(6)`. -/
def csvRow (u : String) (d : ReportData) : List String :=
  ["\"" ++ escapeQuotes u ++ "\"",
    toString d.totalPrompts,
    toString d.totalExecutions,
    toString d.totalOriginalTokens,
    toString d.totalOptimizedTokens,
    toString d.totalSavings,
    toFixed6 d.estimatedCostSavings]

/-- `exportReportToCsv` from the application module.  When the report has no
keys the function only raises the "No data to export." alert and returns
without touching any file machinery, modelled as `none`; otherwise it
assembles the comma-separated text (header row first, then one row per key
in the report's key order, rows joined by a newline) and hands it to the
download machinery, modelled as `some` of the produced text. -/
def exportReportToCsv (data : FullReport) : Option String :=
  if data.isEmpty then none
  else
    some (String.intercalate "\n"
      (String.intercalate "," csvHeaders ::
        data.map (fun p => String.intercalate "," (csvRow p.1 p.2))))

/-! ## Helper lemmas about report lookup and the accumulation loops -/

/-- The analysis records of user `u` within a record list. -/
def userAnalysisRecords (u : String) (l : List AnalysisRecord) :
    List AnalysisRecord :=
  l.filter (fun r => r.username = u)

/-- The execution records of user `u` within a record list. -/
def userExecutionRecords (u : String) (l : List ExecutionRecord) :
    List ExecutionRecord :=
  l.filter (fun r => r.username = u)

/-- The row the specification predicts for user `u` given the
window-filtered analysis and execution record lists. -/
def specEntry (fA : List AnalysisRecord) (fE : List ExecutionRecord)
    (u : String) : ReportData :=
  { totalPrompts := ((userAnalysisRecords u fA).length : Int)
    totalOriginalTokens :=
      ((userAnalysisRecords u fA).map AnalysisRecord.originalTokenCount).sum
    totalOptimizedTokens :=
      ((userAnalysisRecords u fA).map AnalysisRecord.optimizedTokenCount).sum
    totalSavings := ((userAnalysisRecords u fA).map AnalysisRecord.savings).sum
    totalExecutions := ((userExecutionRecords u fE).length : Int)
    estimatedCostSavings :=
      (((userAnalysisRecords u fA).map AnalysisRecord.savings).sum : ℚ) /
        1000000 * COST_PER_MILLION_TOKENS }

/-- Effect of the first loop on the row of user `u`, replayed on a bare
`ReportData` value. -/
def accAnalysis (l : List AnalysisRecord) (u : String) (d : ReportData) :
    ReportData :=
  l.foldl (fun d r => if r.username = u then applyAnalysis r d else d) d

/-- Effect of the second loop on the row of user `u`, replayed on a bare
`ReportData` value. -/
def accExecution (l : List ExecutionRecord) (u : String) (d : ReportData) :
    ReportData :=
  l.foldl (fun d r => if r.username = u then applyExecution d else d) d


/-- Spec-side notion: the start of the current local calendar day
(00:00:00.000), expressed through the observable clock value as the
current instant stripped of the time already elapsed within the day. -/
def startOfCurrentDay (now : JSDate) : Int :=
  now.getTime - now.msInDay

/-- Spec-side notion: `t` is the most recent Sunday at local 00:00:00.000
relative to `now` (today 00:00 if today is a Sunday): `t` is a local
midnight, falls on a Sunday, is not in the future of today's midnight, and
lies less than seven days back. -/
def IsMostRecentSundayMidnight (now : JSDate) (t : Int) : Prop :=
  (∃ k : Int, t = k * msPerDay ∧ (k + 4) % 7 = 0) ∧
    t ≤ startOfCurrentDay now ∧ startOfCurrentDay now - t < 7 * msPerDay

/-- Number of days of year `y` that precede month `m` (0-based). -/
def daysBeforeMonth (y m : Int) : Int :=
  ((List.range m.toNat).map (fun k => daysInMonth y (k : Int))).sum

/-- Spec-side notion: midnight of the first day of the current local
calendar month, reached by walking back `day - 1` whole days from today's
midnight. -/
def firstOfCurrentMonth (now : JSDate) : Int :=
  startOfCurrentDay now - (now.day - 1) * msPerDay

/-- Spec-side notion: midnight of January 1 of the current local calendar
year, reached by walking back from the first of the current month over the
lengths of the preceding months. -/
def janFirstOfCurrentYear (now : JSDate) : Int :=
  firstOfCurrentMonth now - daysBeforeMonth now.year now.month * msPerDay

/-- The timestamp `ts` falls on the previous local calendar day relative to
`now` (yesterday): at or after yesterday's midnight, strictly before
today's midnight. -/
def OnPreviousDay (ts : Int) (now : JSDate) : Prop :=
  startOfCurrentDay now - msPerDay ≤ ts ∧ ts < startOfCurrentDay now

instance (ts : Int) (now : JSDate) : Decidable (OnPreviousDay ts now) := by
  unfold OnPreviousDay; infer_instance

/-- A sample wall clock: Monday 2026-10-12, noon local time. -/
def sampleNow : JSDate := ⟨2026, 9, 12, 43200000⟩

/-- A sample wall clock on a Sunday: 2026-10-11, noon local time. -/
def sunNoon : JSDate := ⟨2026, 9, 11, 43200000⟩

/-- The CSV text the specification describes for a non-empty report: first
row the fixed seven-column header, then exactly one row per user in the
mapping key order, the username enclosed in double quotes with internal
double quotes doubled, the cost column formatted to six decimal places,
cells joined by commas and rows by newlines. -/
def specCsvText (data : FullReport) : String :=
  String.intercalate "\n"
    (String.intercalate ","
        ["User", "Total Prompts", "Total Executions", "Total Original Tokens",
          "Total Optimized Tokens", "Total Savings",
          "Estimated Cost Savings ($)"] ::
      data.map (fun p =>
        String.intercalate ","
          ["\"" ++ escapeQuotes p.1 ++ "\"",
            toString p.2.totalPrompts,
            toString p.2.totalExecutions,
            toString p.2.totalOriginalTokens,
            toString p.2.totalOptimizedTokens,
            toString p.2.totalSavings,
            toFixed6 p.2.estimatedCostSavings]))

/-- Key insertion as performed lazily by `initializeUserReport`: append the
key if and only if it is not yet present. -/
def insertKey (ks : List String) (u : String) : List String :=
  if u ∈ ks then ks else ks ++ [u]

/-- The key list produced by scanning a username list left to right and
keeping the first occurrence of each name. -/
def dedupKeys (l : List String) : List String :=
  l.foldl insertKey []

/-! ## Lemmas -/

theorem lookupReport_eq_none_iff (rep : FullReport) (u : String) :
    lookupReport rep u = none ↔ u ∉ reportKeys rep := by
  induction rep with
  | nil => simp [lookupReport, reportKeys]
  | cons p rest ih =>
    by_cases h : p.1 = u
    · simp [lookupReport, reportKeys, h]
    · have h2 : ¬u = p.1 := fun hh => h hh.symm
      simp [lookupReport, reportKeys, h, h2, ih]

theorem lookupReport_isSome_iff (rep : FullReport) (u : String) :
    (lookupReport rep u).isSome = true ↔ u ∈ reportKeys rep := by
  cases hl : lookupReport rep u with
  | none =>
    simp [(lookupReport_eq_none_iff rep u).mp hl]
  | some d =>
    simp only [Option.isSome_some, true_iff]
    by_contra hmem
    have h0 := (lookupReport_eq_none_iff rep u).mpr hmem
    rw [hl] at h0
    cases h0

theorem lookupReport_append (rep₁ rep₂ : FullReport) (u : String) :
    lookupReport (rep₁ ++ rep₂) u =
      (lookupReport rep₁ u).orElse (fun _ => lookupReport rep₂ u) := by
  induction rep₁ with
  | nil => simp [lookupReport]
  | cons p rest ih =>
    by_cases h : p.1 = u <;> simp [lookupReport, h, ih]

theorem lookupReport_modify (rep : FullReport) (v u : String)
    (f : ReportData → ReportData) :
    lookupReport (modifyReport rep v f) u =
      (lookupReport rep u).map (fun d => if u = v then f d else d) := by
  induction rep with
  | nil => simp [lookupReport, modifyReport]
  | cons p rest ih =>
    simp only [modifyReport, List.map_cons] at ih ⊢
    by_cases hpv : p.1 = v
    · by_cases hpu : p.1 = u
      · have huv : u = v := hpu ▸ hpv
        simp [lookupReport, hpv, hpu, huv]
      · have huv : ¬u = v := fun hh => hpu (hpv.trans hh.symm)
        have hvu : ¬v = u := fun hh => hpu (hpv.trans hh)
        simp [lookupReport, hpv, hpu, ih, huv, hvu]
    · by_cases hpu : p.1 = u
      · have huv : ¬u = v := fun hh => hpv (hpu.trans hh)
        simp [lookupReport, hpv, hpu, huv]
      · simp [lookupReport, hpv, hpu, ih]

theorem reportKeys_modify (rep : FullReport) (v : String)
    (f : ReportData → ReportData) :
    reportKeys (modifyReport rep v f) = reportKeys rep := by
  induction rep with
  | nil => rfl
  | cons p rest ih =>
    simp only [modifyReport, List.map_cons] at ih ⊢
    by_cases h : p.1 = v <;> simp [reportKeys, h, ih] <;>
      simpa [reportKeys] using ih

theorem reportKeys_initialize (rep : FullReport) (v : String) :
    reportKeys (initializeUserReport rep v) =
      if v ∈ reportKeys rep then reportKeys rep else reportKeys rep ++ [v] := by
  unfold initializeUserReport
  by_cases h : v ∈ reportKeys rep
  · rw [if_pos h, if_pos h]
  · rw [if_neg h, if_neg h]
    simp [reportKeys]

theorem lookupReport_initialize (rep : FullReport) (v u : String) :
    lookupReport (initializeUserReport rep v) u =
      if u = v then some ((lookupReport rep u).getD emptyReportData)
      else lookupReport rep u := by
  unfold initializeUserReport
  by_cases hv : v ∈ reportKeys rep
  · rw [if_pos hv]
    by_cases huv : u = v
    · subst huv
      obtain ⟨d, hd⟩ := Option.isSome_iff_exists.mp
        ((lookupReport_isSome_iff rep u).mpr hv)
      simp [hd]
    · simp [huv]
  · rw [if_neg hv, lookupReport_append]
    by_cases huv : u = v
    · subst huv
      have h0 : lookupReport rep u = none :=
        (lookupReport_eq_none_iff rep u).mpr hv
      simp [h0, lookupReport]
    · cases hl : lookupReport rep u with
      | some d => simp [hl, huv]
      | none =>
        have hne : ¬v = u := fun hh => huv hh.symm
        simp [hl, lookupReport, hne, huv]

theorem lookupReport_foldAnalysis (rep : FullReport) (r : AnalysisRecord)
    (u : String) :
    lookupReport (foldAnalysis rep r) u =
      if r.username = u then
        some (applyAnalysis r ((lookupReport rep u).getD emptyReportData))
      else lookupReport rep u := by
  unfold foldAnalysis
  rw [lookupReport_modify, lookupReport_initialize]
  by_cases h : u = r.username
  · simp [h]
  · have h2 : ¬r.username = u := fun hh => h hh.symm
    simp [h, h2]

theorem lookupReport_foldExecution (rep : FullReport) (r : ExecutionRecord)
    (u : String) :
    lookupReport (foldExecution rep r) u =
      if r.username = u then
        some (applyExecution ((lookupReport rep u).getD emptyReportData))
      else lookupReport rep u := by
  unfold foldExecution
  rw [lookupReport_modify, lookupReport_initialize]
  by_cases h : u = r.username
  · simp [h]
  · have h2 : ¬r.username = u := fun hh => h hh.symm
    simp [h, h2]

theorem lookupReport_foldl_analysis_some (l : List AnalysisRecord)
    (rep : FullReport) (u : String) (d : ReportData)
    (h : lookupReport rep u = some d) :
    lookupReport (l.foldl foldAnalysis rep) u = some (accAnalysis l u d) := by
  induction l generalizing rep d with
  | nil => simpa [accAnalysis] using h
  | cons r l ih =>
    simp only [List.foldl_cons, accAnalysis, List.foldl_cons]
    by_cases hr : r.username = u
    · have h2 : lookupReport (foldAnalysis rep r) u =
          some (applyAnalysis r d) := by
        rw [lookupReport_foldAnalysis, if_pos hr, h]
        rfl
      simpa [accAnalysis, hr] using ih _ _ h2
    · have h2 : lookupReport (foldAnalysis rep r) u = some d := by
        rw [lookupReport_foldAnalysis, if_neg hr, h]
      simpa [accAnalysis, hr] using ih _ _ h2

theorem lookupReport_foldl_analysis_none (l : List AnalysisRecord)
    (rep : FullReport) (u : String) (h : lookupReport rep u = none) :
    lookupReport (l.foldl foldAnalysis rep) u =
      if u ∈ l.map AnalysisRecord.username then
        some (accAnalysis l u emptyReportData)
      else none := by
  induction l generalizing rep with
  | nil => simpa using h
  | cons r l ih =>
    simp only [List.foldl_cons]
    by_cases hr : r.username = u
    · have h2 : lookupReport (foldAnalysis rep r) u =
          some (applyAnalysis r emptyReportData) := by
        rw [lookupReport_foldAnalysis, if_pos hr, h]
        rfl
      rw [lookupReport_foldl_analysis_some l _ u _ h2]
      simp [hr, accAnalysis]
    · have h2 : lookupReport (foldAnalysis rep r) u = none := by
        rw [lookupReport_foldAnalysis, if_neg hr, h]
      rw [ih _ h2]
      have h3 : ¬u = r.username := fun hh => hr hh.symm
      simp [hr, h3, accAnalysis]

theorem lookupReport_foldl_execution_some (l : List ExecutionRecord)
    (rep : FullReport) (u : String) (d : ReportData)
    (h : lookupReport rep u = some d) :
    lookupReport (l.foldl foldExecution rep) u = some (accExecution l u d) := by
  induction l generalizing rep d with
  | nil => simpa [accExecution] using h
  | cons r l ih =>
    simp only [List.foldl_cons]
    by_cases hr : r.username = u
    · have h2 : lookupReport (foldExecution rep r) u =
          some (applyExecution d) := by
        rw [lookupReport_foldExecution, if_pos hr, h]
        rfl
      simpa [accExecution, hr] using ih _ _ h2
    · have h2 : lookupReport (foldExecution rep r) u = some d := by
        rw [lookupReport_foldExecution, if_neg hr, h]
      simpa [accExecution, hr] using ih _ _ h2

theorem lookupReport_foldl_execution_none (l : List ExecutionRecord)
    (rep : FullReport) (u : String) (h : lookupReport rep u = none) :
    lookupReport (l.foldl foldExecution rep) u =
      if u ∈ l.map ExecutionRecord.username then
        some (accExecution l u emptyReportData)
      else none := by
  induction l generalizing rep with
  | nil => simpa using h
  | cons r l ih =>
    simp only [List.foldl_cons]
    by_cases hr : r.username = u
    · have h2 : lookupReport (foldExecution rep r) u =
          some (applyExecution emptyReportData) := by
        rw [lookupReport_foldExecution, if_pos hr, h]
        rfl
      rw [lookupReport_foldl_execution_some l _ u _ h2]
      simp [hr, accExecution]
    · have h2 : lookupReport (foldExecution rep r) u = none := by
        rw [lookupReport_foldExecution, if_neg hr, h]
      rw [ih _ h2]
      have h3 : ¬u = r.username := fun hh => hr hh.symm
      simp [hr, h3, accExecution]

theorem lookupReport_finalizeCosts (rep : FullReport) (u : String) :
    lookupReport (finalizeCosts rep) u =
      (lookupReport rep u).map (fun d =>
        { d with
            estimatedCostSavings :=
              (d.totalSavings : ℚ) / 1000000 * COST_PER_MILLION_TOKENS }) := by
  induction rep with
  | nil => simp [lookupReport, finalizeCosts]
  | cons p rest ih =>
    simp only [finalizeCosts, List.map_cons] at ih ⊢
    by_cases h : p.1 = u <;> simp [lookupReport, h, ih]

theorem reportKeys_finalizeCosts (rep : FullReport) :
    reportKeys (finalizeCosts rep) = reportKeys rep := by
  induction rep with
  | nil => rfl
  | cons p rest ih =>
    simp only [finalizeCosts, reportKeys, List.map_cons] at ih ⊢
    simp [ih]

theorem reportKeys_foldAnalysis (rep : FullReport) (r : AnalysisRecord) :
    reportKeys (foldAnalysis rep r) = insertKey (reportKeys rep) r.username := by
  unfold foldAnalysis insertKey
  rw [reportKeys_modify, reportKeys_initialize]

theorem reportKeys_foldExecution (rep : FullReport) (r : ExecutionRecord) :
    reportKeys (foldExecution rep r) = insertKey (reportKeys rep) r.username := by
  unfold foldExecution insertKey
  rw [reportKeys_modify, reportKeys_initialize]

theorem reportKeys_foldl_analysis (l : List AnalysisRecord) (rep : FullReport) :
    reportKeys (l.foldl foldAnalysis rep) =
      (l.map AnalysisRecord.username).foldl insertKey (reportKeys rep) := by
  induction l generalizing rep with
  | nil => rfl
  | cons r l ih => simp [ih, reportKeys_foldAnalysis]

theorem reportKeys_foldl_execution (l : List ExecutionRecord)
    (rep : FullReport) :
    reportKeys (l.foldl foldExecution rep) =
      (l.map ExecutionRecord.username).foldl insertKey (reportKeys rep) := by
  induction l generalizing rep with
  | nil => rfl
  | cons r l ih => simp [ih, reportKeys_foldExecution]

theorem nodup_foldl_insertKey (l : List String) (ks : List String)
    (h : ks.Nodup) : (l.foldl insertKey ks).Nodup := by
  induction l generalizing ks with
  | nil => exact h
  | cons v l ih =>
    refine ih (insertKey ks v) ?_
    unfold insertKey
    by_cases hv : v ∈ ks
    · simpa [hv] using h
    · simp [hv, h, List.nodup_append]

theorem mem_foldl_insertKey (l : List String) (ks : List String) (u : String) :
    u ∈ l.foldl insertKey ks ↔ u ∈ ks ∨ u ∈ l := by
  induction l generalizing ks with
  | nil => simp
  | cons v l ih =>
    rw [List.foldl_cons, ih]
    unfold insertKey
    by_cases hv : v ∈ ks
    · simp only [hv, if_true, List.mem_cons]
      constructor
      · intro hor
        rcases hor with h1 | h2
        · exact Or.inl h1
        · exact Or.inr (Or.inr h2)
      · intro hor
        rcases hor with h1 | h2 | h3
        · exact Or.inl h1
        · exact Or.inl (h2 ▸ hv)
        · exact Or.inr h3
    · simp only [hv, if_false, List.mem_append, List.mem_singleton,
        List.mem_cons]
      tauto

theorem accAnalysis_closed (l : List AnalysisRecord) (u : String)
    (d : ReportData) :
    accAnalysis l u d =
      { totalPrompts := d.totalPrompts + ((userAnalysisRecords u l).length : Int)
        totalOriginalTokens := d.totalOriginalTokens +
          ((userAnalysisRecords u l).map AnalysisRecord.originalTokenCount).sum
        totalOptimizedTokens := d.totalOptimizedTokens +
          ((userAnalysisRecords u l).map AnalysisRecord.optimizedTokenCount).sum
        totalSavings := d.totalSavings +
          ((userAnalysisRecords u l).map AnalysisRecord.savings).sum
        totalExecutions := d.totalExecutions
        estimatedCostSavings := d.estimatedCostSavings } := by
  induction l generalizing d with
  | nil => simp [accAnalysis, userAnalysisRecords]
  | cons r l ih =>
    simp only [accAnalysis, List.foldl_cons] at ih ⊢
    by_cases hr : r.username = u
    · rw [if_pos hr, ih]
      have hf : userAnalysisRecords u (r :: l) = r :: userAnalysisRecords u l := by
        simp [userAnalysisRecords, List.filter_cons, hr]
      rw [hf]
      simp only [List.length_cons, List.map_cons, List.sum_cons, applyAnalysis]
      refine ReportData.mk.injEq .. ▸ ?_
      push_cast
      refine ⟨by ring, by ring, by ring, by ring, rfl, rfl⟩
    · rw [if_neg hr, ih]
      simp [userAnalysisRecords, List.filter_cons, hr]

theorem accExecution_closed (l : List ExecutionRecord) (u : String)
    (d : ReportData) :
    accExecution l u d =
      { d with
          totalExecutions := d.totalExecutions +
            ((userExecutionRecords u l).length : Int) } := by
  induction l generalizing d with
  | nil => simp [accExecution, userExecutionRecords]
  | cons r l ih =>
    simp only [accExecution, List.foldl_cons] at ih ⊢
    by_cases hr : r.username = u
    · rw [if_pos hr, ih]
      have hf : userExecutionRecords u (r :: l) = r :: userExecutionRecords u l := by
        simp [userExecutionRecords, List.filter_cons, hr]
      rw [hf]
      simp only [List.length_cons, applyExecution]
      refine ReportData.mk.injEq .. ▸ ?_
      push_cast
      refine ⟨rfl, rfl, rfl, rfl, by ring, rfl⟩
    · rw [if_neg hr, ih]
      simp [userExecutionRecords, List.filter_cons, hr]

theorem userAnalysisRecords_eq_nil {u : String} {l : List AnalysisRecord}
    (h : u ∉ l.map AnalysisRecord.username) : userAnalysisRecords u l = [] := by
  unfold userAnalysisRecords
  rw [List.filter_eq_nil_iff]
  intro r hr
  simp only [decide_eq_true_eq]
  exact fun hh => h (List.mem_map.mpr ⟨r, hr, hh⟩)

theorem userExecutionRecords_eq_nil {u : String} {l : List ExecutionRecord}
    (h : u ∉ l.map ExecutionRecord.username) : userExecutionRecords u l = [] := by
  unfold userExecutionRecords
  rw [List.filter_eq_nil_iff]
  intro r hr
  simp only [decide_eq_true_eq]
  exact fun hh => h (List.mem_map.mpr ⟨r, hr, hh⟩)

theorem lookupReport_calculateReportData (A : List AnalysisRecord)
    (E : List ExecutionRecord) (p : Period) (now : JSDate) (u : String) :
    lookupReport (calculateReportData A E p now) u =
      if u ∈ (A.filter
            (fun r => windowStart p now ≤ r.timestamp)).map AnalysisRecord.username
          ∨ u ∈ (E.filter
            (fun r => windowStart p now ≤ r.timestamp)).map ExecutionRecord.username
      then
        some (specEntry (A.filter (fun r => windowStart p now ≤ r.timestamp))
          (E.filter (fun r => windowStart p now ≤ r.timestamp)) u)
      else none := by
  have hcalc : calculateReportData A E p now =
      finalizeCosts
        ((E.filter (fun r => windowStart p now ≤ r.timestamp)).foldl foldExecution
          ((A.filter (fun r => windowStart p now ≤ r.timestamp)).foldl
            foldAnalysis [])) := rfl
  rw [hcalc, lookupReport_finalizeCosts]
  have hnil : lookupReport ([] : FullReport) u = none := rfl
  by_cases hA : u ∈ (A.filter
      (fun r => windowStart p now ≤ r.timestamp)).map AnalysisRecord.username
  · have h1 : lookupReport
        ((A.filter (fun r => windowStart p now ≤ r.timestamp)).foldl
          foldAnalysis []) u =
        some (accAnalysis (A.filter (fun r => windowStart p now ≤ r.timestamp))
          u emptyReportData) := by
      rw [lookupReport_foldl_analysis_none _ _ _ hnil, if_pos hA]
    rw [lookupReport_foldl_execution_some _ _ _ _ h1, if_pos (Or.inl hA)]
    rw [accExecution_closed, accAnalysis_closed]
    simp only [Option.map_some', specEntry, emptyReportData]
    refine congrArg some (ReportData.mk.injEq .. ▸ ?_)
    refine ⟨by ring, by ring, by ring, by ring, by ring,
      by push_cast; ring⟩
  · have h1 : lookupReport
        ((A.filter (fun r => windowStart p now ≤ r.timestamp)).foldl
          foldAnalysis []) u = none := by
      rw [lookupReport_foldl_analysis_none _ _ _ hnil, if_neg hA]
    rw [lookupReport_foldl_execution_none _ _ _ h1]
    by_cases hE : u ∈ (E.filter
        (fun r => windowStart p now ≤ r.timestamp)).map ExecutionRecord.username
    · rw [if_pos hE, if_pos (Or.inr hE)]
      rw [accExecution_closed]
      rw [specEntry, userAnalysisRecords_eq_nil hA]
      simp only [Option.map_some', emptyReportData]
      refine congrArg some (ReportData.mk.injEq .. ▸ ?_)
      refine ⟨by simp, by simp, by simp, by simp, by ring, by simp⟩
    · rw [if_neg hE]
      have : ¬(u ∈ (A.filter
          (fun r => windowStart p now ≤ r.timestamp)).map AnalysisRecord.username
          ∨ u ∈ (E.filter
          (fun r => windowStart p now ≤ r.timestamp)).map
            ExecutionRecord.username) := by
        intro hor
        rcases hor with h1 | h2
        · exact hA h1
        · exact hE h2
      rw [if_neg this]
      rfl

theorem reportKeys_calculateReportData (A : List AnalysisRecord)
    (E : List ExecutionRecord) (p : Period) (now : JSDate) :
    reportKeys (calculateReportData A E p now) =
      dedupKeys
        ((A.filter (fun r => windowStart p now ≤ r.timestamp)).map
            AnalysisRecord.username ++
          (E.filter (fun r => windowStart p now ≤ r.timestamp)).map
            ExecutionRecord.username) := by
  have hcalc : calculateReportData A E p now =
      finalizeCosts
        ((E.filter (fun r => windowStart p now ≤ r.timestamp)).foldl foldExecution
          ((A.filter (fun r => windowStart p now ≤ r.timestamp)).foldl
            foldAnalysis [])) := rfl
  rw [hcalc, reportKeys_finalizeCosts, reportKeys_foldl_execution,
    reportKeys_foldl_analysis]
  unfold dedupKeys
  rw [List.foldl_append]
  rfl

theorem makeDay_date_shift (y m d : Int) :
    makeDay y m d = makeDay y m 1 + (d - 1) := by
  unfold makeDay
  dsimp only
  split_ifs <;> ring

theorem startOfCurrentDay_eq (now : JSDate) :
    startOfCurrentDay now = makeDay now.year now.month now.day * msPerDay := by
  unfold startOfCurrentDay JSDate.getTime
  ring

theorem getDay_bounds (now : JSDate) : 0 ≤ now.getDay ∧ now.getDay < 7 := by
  unfold JSDate.getDay
  omega

set_option maxHeartbeats 1000000 in
theorem makeDay_month_start (y m : Int) (h0 : 0 ≤ m) (h1 : m ≤ 11) :
    makeDay y m 1 = makeDay y 0 1 + daysBeforeMonth y m := by
  interval_cases m
  · simp [daysBeforeMonth]
  all_goals
    simp [daysBeforeMonth, daysInMonth, List.range_succ, Int.toNat_ofNat]
    unfold makeDay
    norm_num
    first
    | (split_ifs <;> omega)
    | omega

theorem windowStart_day_eq (now : JSDate) :
    windowStart Period.day now = startOfCurrentDay now := by
  unfold windowStart startOfCurrentDay JSDate.getTime
  ring

theorem windowStart_week_eq (now : JSDate) :
    windowStart Period.week now =
      startOfCurrentDay now - now.getDay * msPerDay := by
  unfold windowStart startOfCurrentDay JSDate.getTime
  rw [makeDay_date_shift now.year now.month (now.day - now.getDay),
    makeDay_date_shift now.year now.month now.day]
  ring

theorem windowStart_month_eq (now : JSDate) :
    windowStart Period.month now = firstOfCurrentMonth now := by
  unfold windowStart firstOfCurrentMonth startOfCurrentDay JSDate.getTime
  rw [makeDay_date_shift now.year now.month now.day]
  ring

theorem windowStart_year_eq (now : JSDate) (hv : now.Valid) :
    windowStart Period.year now = janFirstOfCurrentYear now := by
  obtain ⟨hm0, hm1, -, -, -, -⟩ := hv
  show makeDay now.year 0 1 * msPerDay = _
  unfold janFirstOfCurrentYear firstOfCurrentMonth
    startOfCurrentDay JSDate.getTime
  rw [makeDay_date_shift now.year now.month now.day,
    makeDay_month_start now.year now.month hm0 hm1]
  ring

theorem windowStart_week_isSunday (now : JSDate) :
    IsMostRecentSundayMidnight now (windowStart Period.week now) := by
  have hk : makeDay now.year now.month (now.day - now.getDay) =
      makeDay now.year now.month now.day - now.getDay := by
    rw [makeDay_date_shift now.year now.month (now.day - now.getDay),
      makeDay_date_shift now.year now.month now.day]
    ring
  have hb := getDay_bounds now
  refine ⟨⟨makeDay now.year now.month (now.day - now.getDay), rfl, ?_⟩, ?_, ?_⟩
  · rw [hk]
    unfold JSDate.getDay
    omega
  · rw [windowStart_week_eq]
    have : (0 : Int) ≤ now.getDay * msPerDay := by
      have : (0 : Int) < msPerDay := by unfold msPerDay; norm_num
      exact mul_nonneg hb.1 (le_of_lt this)
    omega
  · rw [windowStart_week_eq]
    unfold msPerDay
    omega


theorem addUser_dup (s : DBState) (n : String) (now : Int)
    (h : ∃ u ∈ s.users, u.name = n) :
    addUser s n now = (Except.error (dupUserMsg n), s) := by
  unfold addUser
  rw [if_pos]
  rw [List.any_eq_true]
  obtain ⟨u, hu, hn⟩ := h
  exact ⟨u, hu, by simp [hn]⟩

theorem addUser_fresh (s : DBState) (n : String) (now : Int)
    (h : ∀ u ∈ s.users, u.name ≠ n) :
    addUser s n now =
      (Except.ok ⟨s.nextUserId, n, now⟩,
        { s with
            users := s.users ++ [⟨s.nextUserId, n, now⟩]
            nextUserId := s.nextUserId + 1 }) := by
  unfold addUser
  rw [if_neg]
  rw [List.any_eq_true]
  rintro ⟨u, hu, hn⟩
  exact h u hu (by simpa using hn)

/-- C1: every successful `addAnalysisRecord(username, analysisResult)` call
returns (and persists) a record whose `savings` equals
`originalTokenCount - optimizedTokenCount` (an `Int` subtraction, possibly
negative), carrying the username and both token counts unchanged; the
record is appended verbatim to the store, and `getAllHistory` hands the
stored records back verbatim for any state, so the stored `savings` value
is fixed at write time and never recomputed from the two token counts
later. -/
theorem addAnalysisRecord_savings_fixed (s : DBState) (u : String)
    (res : AnalysisResult) (now : Int) :
    (addAnalysisRecord s u res now).1.savings =
        res.originalTokenCount - res.optimizedTokenCount ∧
    (addAnalysisRecord s u res now).1.username = u ∧
    (addAnalysisRecord s u res now).1.originalTokenCount =
        res.originalTokenCount ∧
    (addAnalysisRecord s u res now).1.optimizedTokenCount =
        res.optimizedTokenCount ∧
    (addAnalysisRecord s u res now).1.timestamp = now ∧
    (addAnalysisRecord s u res now).2.analysisHistory =
        s.analysisHistory ++ [(addAnalysisRecord s u res now).1] ∧
    (∀ t : DBState, getAllHistory t = t.analysisHistory) := by
  exact ⟨rfl, rfl, rfl, rfl, rfl, rfl, fun t => rfl⟩

/-- C5: `addUser(name)` fails with the duplicate-user error exactly when a
profile with that exact (case-sensitive) name is stored, leaving the
stored users unchanged; on a fresh name it succeeds and returns the full
profile with the generated id and `createdAt = now`; and for distinct
fresh names n₁ ≠ n₂, adding n₁ then n₂ both succeed while re-adding n₁
afterwards fails with the duplicate error and leaves the state
unchanged. -/
theorem addUser_duplicate_behavior :
    (∀ (s : DBState) (n : String) (now : Int),
      (∃ u ∈ s.users, u.name = n) →
        addUser s n now = (Except.error (dupUserMsg n), s)) ∧
    (∀ (s : DBState) (n : String) (now : Int),
      (∀ u ∈ s.users, u.name ≠ n) →
        (addUser s n now).1 = Except.ok ⟨s.nextUserId, n, now⟩ ∧
        (addUser s n now).2.users = s.users ++ [⟨s.nextUserId, n, now⟩]) ∧
    (∀ (s : DBState) (n₁ n₂ : String) (t₁ t₂ t₃ : Int),
      n₁ ≠ n₂ → (∀ u ∈ s.users, u.name ≠ n₁ ∧ u.name ≠ n₂) →
        (addUser s n₁ t₁).1 = Except.ok ⟨s.nextUserId, n₁, t₁⟩ ∧
        (addUser (addUser s n₁ t₁).2 n₂ t₂).1 =
          Except.ok ⟨(addUser s n₁ t₁).2.nextUserId, n₂, t₂⟩ ∧
        (addUser (addUser (addUser s n₁ t₁).2 n₂ t₂).2 n₁ t₃).1 =
          Except.error (dupUserMsg n₁) ∧
        (addUser (addUser (addUser s n₁ t₁).2 n₂ t₂).2 n₁ t₃).2 =
          (addUser (addUser s n₁ t₁).2 n₂ t₂).2) := by
  refine ⟨addUser_dup, ?_, ?_⟩
  · intro s n now h
    rw [addUser_fresh s n now h]
    exact ⟨rfl, rfl⟩
  · intro s n₁ n₂ t₁ t₂ t₃ hne h
    have h₁ : ∀ u ∈ s.users, u.name ≠ n₁ := fun u hu => (h u hu).1
    have e₁ := addUser_fresh s n₁ t₁ h₁
    have h₂ : ∀ u ∈ (addUser s n₁ t₁).2.users, u.name ≠ n₂ := by
      rw [e₁]
      intro u hu
      simp only [List.mem_append, List.mem_singleton] at hu
      rcases hu with hu | hu
      · exact (h u hu).2
      · rw [hu]
        exact hne
    have e₂ := addUser_fresh (addUser s n₁ t₁).2 n₂ t₂ h₂
    have h₃ : ∃ u ∈ (addUser (addUser s n₁ t₁).2 n₂ t₂).2.users,
        u.name = n₁ := by
      rw [e₂, e₁]
      exact ⟨⟨s.nextUserId, n₁, t₁⟩, by simp, rfl⟩
    have e₃ := addUser_dup (addUser (addUser s n₁ t₁).2 n₂ t₂).2 n₁ t₃ h₃
    rw [e₃, e₂, e₁]
    exact ⟨rfl, rfl, rfl, rfl⟩

/-- Closed witness for C5: from the empty store, adding "alice" then "Bob"
succeeds and re-adding "alice" fails with the duplicate-user message. -/
theorem addUser_duplicate_behavior_witness :
    (addUser emptyDB "alice" 1).1 = Except.ok ⟨1, "alice", 1⟩ ∧
    (addUser (addUser emptyDB "alice" 1).2 "Bob" 2).1 =
      Except.ok ⟨2, "Bob", 2⟩ ∧
    (addUser (addUser (addUser emptyDB "alice" 1).2 "Bob" 2).2 "alice" 3).1 =
      Except.error (dupUserMsg "alice") := by
  have h := addUser_duplicate_behavior.2.2 emptyDB "alice" "Bob" 1 2 3
    (by decide) (by intro u hu; cases hu)
  exact ⟨h.1, h.2.1, h.2.2.1⟩

/-- C7: `clearAllData` runs one transaction spanning the three stores: on
commit all three collections are empty, so `getAllUsers`, `getAllHistory`
and `getAllExecutionHistory` all return the empty list; on abort the
transaction rolls back and the state is returned unchanged, never with
one collection cleared and another not. -/
theorem clearAllData_atomic (s : DBState) :
    (clearAllData s true).1 = Except.ok () ∧
    getAllUsers (clearAllData s true).2 = [] ∧
    getAllHistory (clearAllData s true).2 = [] ∧
    getAllExecutionHistory (clearAllData s true).2 = [] ∧
    (clearAllData s false).1 = Except.error "transaction failed" ∧
    (clearAllData s false).2 = s := by
  exact ⟨rfl, rfl, rfl, rfl, rfl, rfl⟩

theorem mem_finalizeCosts {rep : FullReport} {u : String} {d : ReportData}
    (h : (u, d) ∈ finalizeCosts rep) :
    d.estimatedCostSavings =
      (d.totalSavings : ℚ) / 1000000 * COST_PER_MILLION_TOKENS := by
  unfold finalizeCosts at h
  obtain ⟨q, hq, heq⟩ := List.mem_map.mp h
  have hd := congrArg Prod.snd heq
  simp only at hd
  rw [← hd]

theorem sum_savings_sub (l : List AnalysisRecord)
    (h : ∀ r ∈ l, r.savings = r.originalTokenCount - r.optimizedTokenCount) :
    (l.map AnalysisRecord.savings).sum =
      (l.map AnalysisRecord.originalTokenCount).sum -
        (l.map AnalysisRecord.optimizedTokenCount).sum := by
  induction l with
  | nil => simp
  | cons r l ih =>
    simp only [List.map_cons, List.sum_cons]
    rw [h r (List.mem_cons_self r l),
      ih (fun x hx => h x (List.mem_cons_of_mem r hx))]
    ring

/-- C6: `getAllUsers` returns every stored profile (a permutation of the
store's contents), sorted ascending by name under the locale-aware
comparison; the empty store yields the empty list rather than an error; and
after adding the names "Bob", "alice", "Zoe" the profiles come back in the
order alice, Bob, Zoe. -/
theorem getAllUsers_sorted :
    (∀ s : DBState, (getAllUsers s).Perm s.users) ∧
    (∀ s : DBState, List.Sorted userLe (getAllUsers s)) ∧
    getAllUsers emptyDB = [] ∧
    (getAllUsers
          (addUser (addUser (addUser emptyDB "Bob" 1).2 "alice" 2).2
            "Zoe" 3).2).map UserProfile.name = ["alice", "Bob", "Zoe"] := by
  refine ⟨fun s => List.perm_insertionSort userLe s.users,
    fun s => List.sorted_insertionSort userLe s.users, rfl, by decide⟩

/-- C2: for any inputs and window, `calculateReportData` produces exactly
one entry per username occurring in the window-filtered record lists, the
keys appearing lazily in first-occurrence order; the entry of each such
user counts the qualifying analysis records in `totalPrompts`, sums their
`originalTokenCount`, `optimizedTokenCount` and `savings` fields (the
savings sum unclamped), and counts the qualifying execution records in
`totalExecutions`; usernames outside the filtered lists get no entry. -/
theorem calculateReportData_per_user (A : List AnalysisRecord)
    (E : List ExecutionRecord) (p : Period) (now : JSDate) :
    (reportKeys (calculateReportData A E p now)).Nodup ∧
    reportKeys (calculateReportData A E p now) =
      dedupKeys
        ((A.filter (fun r => windowStart p now ≤ r.timestamp)).map
            AnalysisRecord.username ++
          (E.filter (fun r => windowStart p now ≤ r.timestamp)).map
            ExecutionRecord.username) ∧
    (∀ u : String,
      u ∈ reportKeys (calculateReportData A E p now) ↔
        u ∈ (A.filter (fun r => windowStart p now ≤ r.timestamp)).map
            AnalysisRecord.username ∨
          u ∈ (E.filter (fun r => windowStart p now ≤ r.timestamp)).map
            ExecutionRecord.username) ∧
    (∀ u : String,
      lookupReport (calculateReportData A E p now) u =
        if u ∈ (A.filter (fun r => windowStart p now ≤ r.timestamp)).map
              AnalysisRecord.username ∨
            u ∈ (E.filter (fun r => windowStart p now ≤ r.timestamp)).map
              ExecutionRecord.username
        then
          some
            (specEntry (A.filter (fun r => windowStart p now ≤ r.timestamp))
              (E.filter (fun r => windowStart p now ≤ r.timestamp)) u)
        else none) := by
  refine ⟨?_, reportKeys_calculateReportData A E p now, ?_,
    lookupReport_calculateReportData A E p now⟩
  · rw [reportKeys_calculateReportData]
    exact nodup_foldl_insertKey _ _ List.nodup_nil
  · intro u
    rw [reportKeys_calculateReportData]
    unfold dedupKeys
    rw [mem_foldl_insertKey]
    simp

/-- C4: every entry of a computed report satisfies
`estimatedCostSavings = (totalSavings / 1000000) * 0.35`; and aggregating
the two analysis records (100→40, savings 60) and (120→100, savings 20) of
user "a" over the all-time window yields totalPrompts 2, original tokens
220, optimized tokens 140, savings 80 and cost savings 0.000028. -/
theorem estimatedCostSavings_formula :
    (∀ (A : List AnalysisRecord) (E : List ExecutionRecord) (p : Period)
        (now : JSDate) (u : String) (d : ReportData),
      (u, d) ∈ calculateReportData A E p now →
        d.estimatedCostSavings =
          (d.totalSavings : ℚ) / 1000000 * COST_PER_MILLION_TOKENS) ∧
    calculateReportData
        [⟨1, "a", 1000, 100, 40, 60⟩, ⟨2, "a", 2000, 120, 100, 20⟩] []
        Period.all sampleNow =
      [("a", ⟨2, 220, 140, 80, 0, 0.000028⟩)] := by
  constructor
  · intro A E p now u d hmem
    exact mem_finalizeCosts hmem
  · norm_num [calculateReportData, windowStart, foldAnalysis,
      initializeUserReport, modifyReport, applyAnalysis, finalizeCosts,
      emptyReportData, reportKeys, COST_PER_MILLION_TOKENS]

/-- Closed witness for C4: the entry of user "a" in the two-record
aggregation is in the report and satisfies the cost formula. -/
theorem estimatedCostSavings_formula_witness :
    ("a", (⟨2, 220, 140, 80, 0, 0.000028⟩ : ReportData)) ∈
      calculateReportData
        [⟨1, "a", 1000, 100, 40, 60⟩, ⟨2, "a", 2000, 120, 100, 20⟩] []
        Period.all sampleNow ∧
    (⟨2, 220, 140, 80, 0, 0.000028⟩ : ReportData).estimatedCostSavings =
      ((⟨2, 220, 140, 80, 0, 0.000028⟩ : ReportData).totalSavings : ℚ) /
        1000000 * COST_PER_MILLION_TOKENS := by
  have hmem : ("a", (⟨2, 220, 140, 80, 0, 0.000028⟩ : ReportData)) ∈
      calculateReportData
        [⟨1, "a", 1000, 100, 40, 60⟩, ⟨2, "a", 2000, 120, 100, 20⟩] []
        Period.all sampleNow := by
    rw [estimatedCostSavings_formula.2]
    simp
  exact ⟨hmem, estimatedCostSavings_formula.1 _ _ _ _ _ _ hmem⟩

/-- C10: when every input analysis record satisfies
`savings = originalTokenCount - optimizedTokenCount` (as every record
produced by `addAnalysisRecord` does), every report entry satisfies
`totalSavings = totalOriginalTokens - totalOptimizedTokens`; for an input
record violating the field relation the equation can fail, because
aggregation sums the stored `savings` field instead of recomputing it. -/
theorem totalSavings_relation :
    (∀ (A : List AnalysisRecord) (E : List ExecutionRecord) (p : Period)
        (now : JSDate),
      (∀ r ∈ A, r.savings = r.originalTokenCount - r.optimizedTokenCount) →
      ∀ (u : String) (d : ReportData),
        lookupReport (calculateReportData A E p now) u = some d →
          d.totalSavings = d.totalOriginalTokens - d.totalOptimizedTokens) ∧
    (∀ (s : DBState) (u : String) (res : AnalysisResult) (now : Int),
      (addAnalysisRecord s u res now).1.savings =
        (addAnalysisRecord s u res now).1.originalTokenCount -
          (addAnalysisRecord s u res now).1.optimizedTokenCount) ∧
    lookupReport
        (calculateReportData [⟨1, "b", 5, 100, 40, 999⟩] [] Period.all
          sampleNow) "b" =
      some ⟨1, 100, 40, 999, 0,
        (999 : ℚ) / 1000000 * COST_PER_MILLION_TOKENS⟩ ∧
    ((999 : Int) ≠ 100 - 40) := by
  refine ⟨?_, fun s u res now => rfl, ?_, by decide⟩
  case refine_2 =>
    norm_num [calculateReportData, windowStart, foldAnalysis,
      initializeUserReport, modifyReport, applyAnalysis, finalizeCosts,
      emptyReportData, reportKeys, lookupReport]
  intro A E p now hpoint u d hd
  rw [lookupReport_calculateReportData] at hd
  split_ifs at hd
  have hde := Option.some.inj hd
  rw [← hde]
  simp only [specEntry]
  apply sum_savings_sub
  intro r hr
  have h1 : r ∈ A.filter (fun x => windowStart p now ≤ x.timestamp) :=
    (List.mem_filter.mp hr).1
  exact hpoint r (List.mem_filter.mp h1).1

/-- Closed witness for C10: a single record satisfying the field relation
produces an entry whose savings equal the token-count difference. -/
theorem totalSavings_relation_witness :
    (∀ r ∈ [(⟨1, "a", 5, 100, 40, 60⟩ : AnalysisRecord)],
      r.savings = r.originalTokenCount - r.optimizedTokenCount) ∧
    lookupReport
        (calculateReportData [⟨1, "a", 5, 100, 40, 60⟩] [] Period.all
          sampleNow) "a" =
      some ⟨1, 100, 40, 60, 0,
        (60 : ℚ) / 1000000 * COST_PER_MILLION_TOKENS⟩ ∧
    (⟨1, 100, 40, 60, 0,
        (60 : ℚ) / 1000000 * COST_PER_MILLION_TOKENS⟩ :
          ReportData).totalSavings =
      (⟨1, 100, 40, 60, 0,
          (60 : ℚ) / 1000000 * COST_PER_MILLION_TOKENS⟩ :
            ReportData).totalOriginalTokens -
        (⟨1, 100, 40, 60, 0,
            (60 : ℚ) / 1000000 * COST_PER_MILLION_TOKENS⟩ :
              ReportData).totalOptimizedTokens := by
  have hlook : lookupReport
      (calculateReportData [⟨1, "a", 5, 100, 40, 60⟩] [] Period.all
        sampleNow) "a" =
      some ⟨1, 100, 40, 60, 0,
        (60 : ℚ) / 1000000 * COST_PER_MILLION_TOKENS⟩ := by
    norm_num [calculateReportData, windowStart, foldAnalysis,
      initializeUserReport, modifyReport, applyAnalysis, finalizeCosts,
      emptyReportData, reportKeys, lookupReport]
  refine ⟨by decide, hlook, ?_⟩
  exact totalSavings_relation.1 [⟨1, "a", 5, 100, 40, 60⟩] [] Period.all
    sampleNow (by decide) "a" _ hlook

/-- C3: the window filter keeps exactly the records with
`timestamp >= windowStart`, and the window start instants are: the start of
the current local calendar day for `day`; the most recent Sunday at local
midnight for `week` (today's midnight when today is a Sunday); midnight of
the first day of the current local calendar month for `month`; midnight of
January 1 of the current local calendar year for `year`; and epoch zero
for `all`. -/
theorem windowStart_characterization (now : JSDate) (hv : now.Valid) :
    windowStart Period.day now = startOfCurrentDay now ∧
    IsMostRecentSundayMidnight now (windowStart Period.week now) ∧
    windowStart Period.month now = firstOfCurrentMonth now ∧
    windowStart Period.year now = janFirstOfCurrentYear now ∧
    windowStart Period.all now = 0 ∧
    (∀ (p : Period) (A : List AnalysisRecord) (r : AnalysisRecord), r ∈ A →
      (r ∈ A.filter (fun x => windowStart p now ≤ x.timestamp) ↔
        windowStart p now ≤ r.timestamp)) ∧
    (∀ (p : Period) (E : List ExecutionRecord) (r : ExecutionRecord), r ∈ E →
      (r ∈ E.filter (fun x => windowStart p now ≤ x.timestamp) ↔
        windowStart p now ≤ r.timestamp)) := by
  refine ⟨windowStart_day_eq now, windowStart_week_isSunday now,
    windowStart_month_eq now, windowStart_year_eq now hv, rfl, ?_, ?_⟩
  · intro p A r hr
    simp [List.mem_filter, hr]
  · intro p E r hr
    simp [List.mem_filter, hr]

/-- Closed witness for C3 at the concrete clock Monday 2026-10-12 noon. -/
theorem windowStart_characterization_witness :
    sampleNow.Valid ∧
    windowStart Period.day sampleNow = startOfCurrentDay sampleNow ∧
    IsMostRecentSundayMidnight sampleNow (windowStart Period.week sampleNow) ∧
    windowStart Period.month sampleNow = firstOfCurrentMonth sampleNow ∧
    windowStart Period.year sampleNow = janFirstOfCurrentYear sampleNow ∧
    windowStart Period.all sampleNow = 0 := by
  have hv : sampleNow.Valid := by decide
  have h := windowStart_characterization sampleNow hv
  exact ⟨hv, h.1, h.2.1, h.2.2.1, h.2.2.2.1, h.2.2.2.2.1⟩

set_option maxHeartbeats 1000000 in
theorem daysBeforeMonth_pos (y m : Int) (h1 : 1 ≤ m) (h2 : m ≤ 11) :
    31 ≤ daysBeforeMonth y m := by
  interval_cases m <;>
    simp [daysBeforeMonth, daysInMonth, List.range_succ, Int.toNat_ofNat] <;>
    split_ifs <;> omega

/-- C8 (amended): a record timestamped on the previous local calendar day
is always excluded from the `day` window; it is included in the `week`
window provided today is not a Sunday, in the `month` window provided
today is not the first of the month, in the `year` window provided today
is not January 1, and in the `all` window provided its timestamp is not
before the epoch.  At the window boundaries (Sunday, the 1st, January 1, a
pre-epoch timestamp) the corresponding window excludes yesterday's
record. -/
theorem yesterday_windows (now : JSDate) (r : AnalysisRecord)
    (hv : now.Valid) (hy : OnPreviousDay r.timestamp now) :
    ¬windowStart Period.day now ≤ r.timestamp ∧
    (now.getDay ≠ 0 → windowStart Period.week now ≤ r.timestamp) ∧
    (2 ≤ now.day → windowStart Period.month now ≤ r.timestamp) ∧
    (¬(now.month = 0 ∧ now.day = 1) →
      windowStart Period.year now ≤ r.timestamp) ∧
    (0 ≤ r.timestamp → windowStart Period.all now ≤ r.timestamp) ∧
    calculateReportData [r] [] Period.day now = [] ∧
    (now.getDay ≠ 0 →
      calculateReportData [r] [] Period.week now =
        [(r.username,
          ⟨1, r.originalTokenCount, r.optimizedTokenCount, r.savings, 0,
            (r.savings : ℚ) / 1000000 * COST_PER_MILLION_TOKENS⟩)]) := by
  have hvv := hv
  obtain ⟨hm0, hm1, hd1, hdle, hms0, hmsd⟩ := hvv
  have hb := getDay_bounds now
  have hy1 : startOfCurrentDay now - msPerDay ≤ r.timestamp := hy.1
  have hy2 : r.timestamp < startOfCurrentDay now := hy.2
  have hday : ¬windowStart Period.day now ≤ r.timestamp := by
    rw [windowStart_day_eq]
    omega
  have hweek : now.getDay ≠ 0 → windowStart Period.week now ≤ r.timestamp := by
    intro hdow
    rw [windowStart_week_eq]
    unfold msPerDay at hy1 ⊢
    omega
  have hmonth : 2 ≤ now.day → windowStart Period.month now ≤ r.timestamp := by
    intro hd2
    rw [windowStart_month_eq]
    unfold firstOfCurrentMonth
    unfold msPerDay at hy1 ⊢
    omega
  have hyear : ¬(now.month = 0 ∧ now.day = 1) →
      windowStart Period.year now ≤ r.timestamp := by
    intro hne
    rw [windowStart_year_eq now hv]
    unfold janFirstOfCurrentYear firstOfCurrentMonth
    by_cases hm : now.month = 0
    · have hdbm : daysBeforeMonth now.year now.month = 0 := by
        rw [hm]
        simp [daysBeforeMonth]
      rw [hdbm]
      have hd2 : 2 ≤ now.day := by
        rcases Int.lt_or_le 1 now.day with h | h
        · omega
        · exact absurd ⟨hm, by omega⟩ hne
      unfold msPerDay at hy1 ⊢
      omega
    · have hmge : 1 ≤ now.month := by omega
      have hdbm := daysBeforeMonth_pos now.year now.month hmge hm1
      unfold msPerDay at hy1 ⊢
      omega
  have hdayrep : calculateReportData [r] [] Period.day now = [] := by
    simp [calculateReportData, hday, finalizeCosts]
  have hweekrep : now.getDay ≠ 0 →
      calculateReportData [r] [] Period.week now =
        [(r.username,
          ⟨1, r.originalTokenCount, r.optimizedTokenCount, r.savings, 0,
            (r.savings : ℚ) / 1000000 * COST_PER_MILLION_TOKENS⟩)] := by
    intro hdow
    have hq := hweek hdow
    norm_num [calculateReportData, hq, foldAnalysis, initializeUserReport,
      modifyReport, applyAnalysis, finalizeCosts, emptyReportData, reportKeys]
  exact ⟨hday, hweek, hmonth, hyear, fun h0 => h0, hdayrep, hweekrep⟩

/-- Closed counterexample to C8 as stated, at each window boundary: on
Sunday 2026-10-11 the week window starts at today's midnight, so a record
timestamped the previous day (Saturday noon) is excluded from the `week`
report; on Thursday 2026-01-01 a record timestamped the previous day
(2025-12-31, noon) is excluded from both the `month` and the `year`
reports; and on Thursday 1970-01-01 a record timestamped the previous day
(1969-12-31, noon, before the epoch) is excluded from the `all` report —
contradicting the claim that yesterday's records are included in the
week, month, year and all windows whatever the current instant is. -/
theorem yesterday_week_counterexample :
    (sunNoon.Valid ∧ sunNoon.getDay = 0 ∧
      OnPreviousDay 1791633600000 sunNoon ∧
      calculateReportData [⟨1, "a", 1791633600000, 10, 5, 5⟩] []
        Period.week sunNoon = []) ∧
    ((⟨2026, 0, 1, 43200000⟩ : JSDate).Valid ∧
      OnPreviousDay 1767182400000 ⟨2026, 0, 1, 43200000⟩ ∧
      calculateReportData [⟨1, "a", 1767182400000, 10, 5, 5⟩] []
        Period.month ⟨2026, 0, 1, 43200000⟩ = [] ∧
      calculateReportData [⟨1, "a", 1767182400000, 10, 5, 5⟩] []
        Period.year ⟨2026, 0, 1, 43200000⟩ = []) ∧
    ((⟨1970, 0, 1, 43200000⟩ : JSDate).Valid ∧
      OnPreviousDay (-43200000) ⟨1970, 0, 1, 43200000⟩ ∧
      calculateReportData [⟨1, "a", -43200000, 10, 5, 5⟩] []
        Period.all ⟨1970, 0, 1, 43200000⟩ = []) := by
  exact ⟨⟨by decide, by decide, by decide, by decide⟩,
    ⟨by decide, by decide, by decide, by decide⟩,
    ⟨by decide, by decide, by decide⟩⟩

/-- Closed witness for the amended C8 at the concrete clock Monday
2026-10-12 noon with a record timestamped Sunday noon. -/
theorem yesterday_windows_witness :
    sampleNow.Valid ∧
    OnPreviousDay 1791720000000 sampleNow ∧
    ¬windowStart Period.day sampleNow ≤ (1791720000000 : Int) ∧
    windowStart Period.week sampleNow ≤ (1791720000000 : Int) ∧
    windowStart Period.month sampleNow ≤ (1791720000000 : Int) ∧
    windowStart Period.year sampleNow ≤ (1791720000000 : Int) ∧
    windowStart Period.all sampleNow ≤ (1791720000000 : Int) ∧
    calculateReportData [⟨1, "a", 1791720000000, 10, 5, 5⟩] []
      Period.day sampleNow = [] := by
  have hv : sampleNow.Valid := by decide
  have hy : OnPreviousDay (1791720000000 : Int) sampleNow := by decide
  have h := yesterday_windows sampleNow ⟨1, "a", 1791720000000, 10, 5, 5⟩ hv hy
  exact ⟨hv, hy, h.1, h.2.1 (by decide), h.2.2.1 (by decide),
    h.2.2.2.1 (by decide), h.2.2.2.2.1 (by decide), h.2.2.2.2.2.1⟩

/-- C9: exporting an empty report produces no file text and only signals
"nothing to export" (`none`); exporting a non-empty report produces the
comma-separated text whose first row is the fixed seven-column header,
followed by exactly one row per user in the mapping's key order, with the
username enclosed in double quotes (internal quotes doubled) and the cost
column formatted to six decimal places. -/
theorem exportReportToCsv_behavior :
    exportReportToCsv [] = none ∧
    (∀ data : FullReport, data ≠ [] →
      exportReportToCsv data = some (specCsvText data)) ∧
    exportReportToCsv [("a", ⟨2, 220, 140, 80, 0, 0.000028⟩)] =
      some ("User,Total Prompts,Total Executions,Total Original Tokens,Total Optimized Tokens,Total Savings,Estimated Cost Savings ($)\n\"a\",2,0,220,140,80,0.000028") := by
  have hf : toFixed6 (0.000028 : ℚ) = "0.000028" := by
    have habs : |(0.000028 : ℚ)| = (0.000028 : ℚ) := abs_of_pos (by norm_num)
    have hfl : ⌊|(0.000028 : ℚ)| * 1000000 + 1 / 2⌋ = (28 : ℤ) := by
      rw [habs, Int.floor_eq_iff]
      norm_num
    have hneg : ¬(0.000028 : ℚ) < 0 := by norm_num
    unfold toFixed6
    rw [hfl, if_neg hneg]
    rfl
  have hproj : toFixed6
      ((⟨2, 220, 140, 80, 0, 0.000028⟩ : ReportData).estimatedCostSavings) =
      "0.000028" := hf
  refine ⟨rfl, ?_, ?_⟩
  · intro data h
    unfold exportReportToCsv specCsvText csvRow csvHeaders
    rw [if_neg (show ¬(data.isEmpty = true) by
      simpa [List.isEmpty_iff] using h)]
  · unfold exportReportToCsv
    rw [if_neg (by simp)]
    unfold csvRow csvHeaders
    simp only [List.map_cons, List.map_nil]
    rw [hproj]
    rfl

/-- Closed witness for C9 on the one-user report of the C4 example. -/
theorem exportReportToCsv_behavior_witness :
    ([("a", (⟨2, 220, 140, 80, 0, 0.000028⟩ : ReportData))] : FullReport) ≠
        [] ∧
    exportReportToCsv [("a", ⟨2, 220, 140, 80, 0, 0.000028⟩)] =
      some (specCsvText [("a", ⟨2, 220, 140, 80, 0, 0.000028⟩)]) := by
  refine ⟨by simp, ?_⟩
  exact exportReportToCsv_behavior.2.1 _ (by simp)

end PromptOptimizer
